import Mathlib

/-!
Verification development for the mac-powermetrics-exporter sampling-and-parsing
pipeline.  The Go collectors (`PowermetricsCollector.Collect`,
`VmStatCollector.Collect`, `MacMonCollector.Collect`) are shallowly embedded as
pure Lean functions over lists of characters (one `Str` per scanned output
line), with external command execution modelled by an `Option` argument
(`none` = the command failed, `some lines` = the lines of its captured
standard output).  Numeric values are modelled as exact rationals (`Rat`);
`float64` rounding is abstracted away, which is faithful for the structural
properties proved here.
-/

/-- A string, represented as its list of characters (Go strings in the
collectors are ASCII command output). -/
abbrev Str := List Char

/-- Model of `strings.Fields`' tokenizer core: split a character list at
whitespace, keeping (possibly empty) chunks between separators. -/
def splitWs : Str → Str → List Str
  | [], cur => [cur.reverse]
  | c :: rest, cur =>
      if c.isWhitespace then cur.reverse :: splitWs rest []
      else splitWs rest (c :: cur)

/-- Model of Go `strings.Fields`: whitespace-separated tokens, empties
discarded. -/
def fields (s : Str) : List Str := (splitWs s []).filter (fun t => ¬ t.isEmpty)

/-- Boolean prefix test on character lists. -/
def isPrefixOfB : Str → Str → Bool
  | [], _ => true
  | _ :: _, [] => false
  | a :: as, b :: bs => a == b && isPrefixOfB as bs

/-- Model of Go `strings.Contains s sub`. -/
def containsSub (s sub : Str) : Bool :=
  match s with
  | [] => sub.isEmpty
  | c :: rest => isPrefixOfB sub (c :: rest) || containsSub rest sub

/-- Model of Go `strings.TrimSpace`: drop leading and trailing whitespace. -/
def trimSpace (s : Str) : Str :=
  ((s.dropWhile Char.isWhitespace).reverse.dropWhile Char.isWhitespace).reverse

/-- Model of Go `strings.TrimRight(s, ".")`: drop every trailing period. -/
def dropTrailingDots (s : Str) : Str :=
  (s.reverse.dropWhile (fun c => c == '.')).reverse

/-- Model of Go `strings.TrimSuffix(s, "%")`: drop one trailing percent sign
if present. -/
def trimSuffixPercent (s : Str) : Str :=
  match s.reverse with
  | '%' :: rest => rest.reverse
  | _ => s

/-- Model of Go `strings.SplitN(line, ":", 2)`: split at the first colon,
yielding two pieces when a colon is present and one piece otherwise. -/
def splitN2colon (s : Str) : List Str :=
  if ':' ∈ s then [s.takeWhile (fun c => c ≠ ':'), (s.dropWhile (fun c => c ≠ ':')).drop 1]
  else [s]

/-- Numeric value of a digit list (most significant first). -/
def digitsToNat (cs : Str) : Nat :=
  cs.foldl (fun a c => a * 10 + (c.toNat - 48)) 0

/-- Strip an optional leading sign, returning whether it was a minus. -/
def stripSign : Str → Bool × Str
  | '-' :: rest => (true, rest)
  | '+' :: rest => (false, rest)
  | cs => (false, cs)

/-- Parse an unsigned decimal mantissa: digits with at most one interior or
trailing or leading dot, and at least one digit. -/
def parseUnsignedDecimal (cs : Str) : Option Rat :=
  if cs.all (fun c => c.isDigit || c == '.') ∧
      (cs.filter (fun c => c == '.')).length ≤ 1 ∧ cs.any Char.isDigit then
    let intPart := cs.takeWhile (fun c => c ≠ '.')
    let fracPart := (cs.dropWhile (fun c => c ≠ '.')).drop 1
    some (mkRat (digitsToNat (intPart ++ fracPart)) (10 ^ fracPart.length))
  else none

/-- Parse a signed decimal mantissa. -/
def parseSignedDecimal (cs : Str) : Option Rat :=
  let (neg, rest) := stripSign cs
  (parseUnsignedDecimal rest).map (fun v => if neg then -v else v)

/-- Split a character list at the first exponent marker `e`/`E`. -/
def splitAtExp : Str → Str × Option Str
  | [] => ([], none)
  | c :: rest =>
      if c == 'e' || c == 'E' then ([], some rest)
      else
        let (m, e) := splitAtExp rest
        (c :: m, e)

/-- Parse an exponent part: optional sign then at least one digit. -/
def parseExponent (cs : Str) : Option Int :=
  let (neg, rest) := stripSign cs
  if rest.all Char.isDigit ∧ ¬ rest.isEmpty then
    some (if neg then -(digitsToNat rest : Int) else (digitsToNat rest : Int))
  else none

/-- Ten to an integer power, as a rational. -/
def ratPow10 (e : Int) : Rat :=
  if 0 ≤ e then (10 : Rat) ^ e.toNat else mkRat 1 (10 ^ (-e).toNat)

/-- Model of Go `strconv.ParseFloat` on the decimal/exponent forms that the
collectors' inputs use (optional sign, digits with at most one dot, optional
`e`/`E` exponent).  The hexadecimal, `Inf`/`NaN` and underscore forms of
`ParseFloat` are outside the model; results are exact rationals. -/
def goParseFloat (s : Str) : Option Rat :=
  match splitAtExp s with
  | (m, none) => parseSignedDecimal m
  | (m, some e) =>
      match parseSignedDecimal m, parseExponent e with
      | some mv, some ev => some (mv * ratPow10 ev)
      | _, _ => none

/-- Prometheus value kind of a metric. -/
inductive MKind where
  | gauge
  | counter
deriving DecidableEq

/-- One emitted metric sample: descriptor name, kind, label values, value.
Mirrors a `prometheus.MustNewConstMetric(desc, kind, value, labels...)` call. -/
structure Sample where
  name : String
  kind : MKind
  labels : List Str
  value : Rat
deriving DecidableEq

/-! ## Powermetrics collector (`PowermetricsCollector.Collect`)

The collector runs `powermetrics --samplers cpu_power,gpu_power -i 1 -n 1`
and scans each output line with literal marker + unit substring tests; on a
match it tokenizes the line on whitespace and reads the token following the
marker word.  The CPU/GPU power metrics are deduplicated by the
`cpuPowerSent`/`gpuPowerSent` flags. -/

/-- Metric names of `PowermetricsCollector` (from `NewPowermetricsCollector`). -/
def cpuFreqName : String := "powermetrics_cpu_frequency_hertz"

def cpuPowerName : String := "powermetrics_cpu_power_milliwatts"

def gpuPowerName : String := "powermetrics_gpu_power_milliwatts"

def cpuActiveResName : String := "powermetrics_cpu_active_residency_percent"

def cpuIdleResName : String := "powermetrics_cpu_idle_residency_percent"

def gpuActiveResName : String := "powermetrics_gpu_active_residency_percent"

def gpuIdleResName : String := "powermetrics_gpu_idle_residency_percent"

/-- The literal token `"CPU"` scanned for the per-core label. -/
def cpuTok : Str := "CPU".data

/-- The literal token `"Power:"` whose successor token is the power value. -/
def powerTok : Str := "Power:".data

/-- The literal token `"frequency:"` whose successor token is the MHz value. -/
def freqTok : Str := "frequency:".data

/-- The literal token `"residency:"` whose successor token is the percentage. -/
def resTok : Str := "residency:".data

/-- The `cpu%s`-formatted core label (`fmt.Sprintf("cpu%s", cpuCore)`). -/
def cpuLabel (core : Str) : Str := 'c' :: 'p' :: 'u' :: core

/-- The token following the first occurrence of `marker` that has a successor
token: model of the Go loops
`for i, part := range parts { if part == marker && i+1 < len(parts) { ... break } }`. -/
def firstSuccessor (marker : Str) : List Str → Option Str
  | [] => none
  | [_] => none
  | a :: b :: rest => if a = marker then some b else firstSuccessor marker (b :: rest)

/-- One pass over a token list maintaining the `cpuCore`/value pair exactly as
the Go loops of the frequency and residency blocks do: the token following
each `"CPU"` overwrites the core, and `upd` folds the token following each
`valMarker` into the running value. -/
def markerScan (valMarker : Str) (upd : Str → Rat → Rat) :
    List Str → Str → Rat → Str × Rat
  | [], core, val => (core, val)
  | [_], core, val => (core, val)
  | a :: b :: rest, core, val =>
      markerScan valMarker upd (b :: rest)
        (if a = cpuTok then b else core)
        (if a = valMarker then upd b val else val)

/-- Value update of the frequency block: a parse success overwrites the value
with the MHz→Hz conversion, a failure leaves it unchanged. -/
def freqUpd (b : Str) (val : Rat) : Rat :=
  match goParseFloat b with
  | some f => f * 1000000
  | none => val

/-- Value update of the residency blocks: `%` suffix is trimmed, a parse
success overwrites the value, a failure leaves it unchanged. -/
def resUpd (b : Str) (val : Rat) : Rat :=
  match goParseFloat (trimSuffixPercent b) with
  | some r => r
  | none => val

/-- Marker test of the CPU power block. -/
def cpuPowerGuard (line : Str) : Bool :=
  containsSub line "CPU Power:".data && containsSub line "mW".data

/-- Marker test of the GPU power block. -/
def gpuPowerGuard (line : Str) : Bool :=
  containsSub line "GPU Power:".data && containsSub line "mW".data

/-- Marker test of the per-core frequency block. -/
def freqGuard (line : Str) : Bool :=
  containsSub line "frequency:".data && containsSub line "MHz".data &&
    containsSub line "CPU".data

/-- Marker test of the per-core active residency block. -/
def activeResGuard (line : Str) : Bool :=
  containsSub line "active residency:".data && containsSub line "%".data &&
    containsSub line "CPU".data

/-- Marker test of the per-core idle residency block. -/
def idleResGuard (line : Str) : Bool :=
  containsSub line "idle residency:".data && containsSub line "%".data &&
    containsSub line "CPU".data

/-- Marker test of the GPU HW active residency block. -/
def gpuActiveResGuard (line : Str) : Bool :=
  containsSub line "GPU HW active residency:".data && containsSub line "%".data

/-- Marker test of the GPU idle residency block. -/
def gpuIdleResGuard (line : Str) : Bool :=
  containsSub line "GPU idle residency:".data && containsSub line "%".data

/-- CPU power block: fires when not yet sent and the markers match; the token
after the first `"Power:"` (with a successor) is parsed, and on success the
sample is emitted and the flag set. -/
def cpuPowerStep (sent : Bool) (line : Str) : List Sample × Bool :=
  if !sent && cpuPowerGuard line then
    match firstSuccessor powerTok (fields line) with
    | some t =>
        match goParseFloat t with
        | some v => ([⟨cpuPowerName, .gauge, [], v⟩], true)
        | none => ([], sent)
    | none => ([], sent)
  else ([], sent)

/-- GPU power block, symmetric to `cpuPowerStep`. -/
def gpuPowerStep (sent : Bool) (line : Str) : List Sample × Bool :=
  if !sent && gpuPowerGuard line then
    match firstSuccessor powerTok (fields line) with
    | some t =>
        match goParseFloat t with
        | some v => ([⟨gpuPowerName, .gauge, [], v⟩], true)
        | none => ([], sent)
    | none => ([], sent)
  else ([], sent)

/-- Per-core frequency block: emitted when the scanned core is non-empty and
the scanned (already MHz→Hz converted) value is strictly positive. -/
def freqStep (line : Str) : List Sample :=
  if freqGuard line then
    let cv := markerScan freqTok freqUpd (fields line) [] 0
    if !cv.1.isEmpty && decide (0 < cv.2) then
      [⟨cpuFreqName, .gauge, [cpuLabel cv.1], cv.2⟩]
    else []
  else []

/-- Per-core active residency block: emitted when the scanned core is
non-empty and the scanned value is non-negative (its initial value is `0`). -/
def activeResStep (line : Str) : List Sample :=
  if activeResGuard line then
    let cv := markerScan resTok resUpd (fields line) [] 0
    if !cv.1.isEmpty && decide (0 ≤ cv.2) then
      [⟨cpuActiveResName, .gauge, [cpuLabel cv.1], cv.2⟩]
    else []
  else []

/-- Per-core idle residency block, identical shape to `activeResStep`. -/
def idleResStep (line : Str) : List Sample :=
  if idleResGuard line then
    let cv := markerScan resTok resUpd (fields line) [] 0
    if !cv.1.isEmpty && decide (0 ≤ cv.2) then
      [⟨cpuIdleResName, .gauge, [cpuLabel cv.1], cv.2⟩]
    else []
  else []

/-- GPU HW active residency block: the token after the first `"residency:"`
is `%`-trimmed and parsed; emitted on success (no dedup flag). -/
def gpuActiveResStep (line : Str) : List Sample :=
  if gpuActiveResGuard line then
    match firstSuccessor resTok (fields line) with
    | some t =>
        match goParseFloat (trimSuffixPercent t) with
        | some v => [⟨gpuActiveResName, .gauge, [], v⟩]
        | none => []
    | none => []
  else []

/-- GPU idle residency block, symmetric to `gpuActiveResStep`. -/
def gpuIdleResStep (line : Str) : List Sample :=
  if gpuIdleResGuard line then
    match firstSuccessor resTok (fields line) with
    | some t =>
        match goParseFloat (trimSuffixPercent t) with
        | some v => [⟨gpuIdleResName, .gauge, [], v⟩]
        | none => []
    | none => []
  else []

/-- One loop iteration of `PowermetricsCollector.Collect` on one scanned line:
the seven blocks run in source order, and the dedup flags are threaded. -/
def pmLineStep (cpuSent gpuSent : Bool) (line : Str) :
    List Sample × Bool × Bool :=
  ((cpuPowerStep cpuSent line).1 ++ (gpuPowerStep gpuSent line).1 ++
      freqStep line ++ activeResStep line ++ idleResStep line ++
      gpuActiveResStep line ++ gpuIdleResStep line,
    (cpuPowerStep cpuSent line).2, (gpuPowerStep gpuSent line).2)

/-- The scanner loop of `PowermetricsCollector.Collect`: every line is
processed in order, emissions are concatenated, flags are threaded. -/
def pmRun : Bool → Bool → List Str → List Sample
  | _, _, [] => []
  | c, g, line :: rest =>
      (pmLineStep c g line).1 ++
        pmRun (pmLineStep c g line).2.1 (pmLineStep c g line).2.2 rest

/-- The parsing phase of `PowermetricsCollector.Collect` applied to the
captured output lines (both dedup flags start `false`). -/
def powermetricsParse (lines : List Str) : List Sample := pmRun false false lines

/-- Model of `PowermetricsCollector.Collect` with the external invocation modelled by
an `Option`: on command failure the error is logged and no sample is emitted. -/
def powermetricsCollect : Option (List Str) → List Sample
  | none => []
  | some lines => powermetricsParse lines

/-! ## vm_stat collector (`VmStatCollector.Collect`)

The collector first emits the page-size sample (from `syscall.Getpagesize()`,
not from parsed text), then runs `vm_stat`, parses each line as a
`key: value.` pair into a map, and emits one sample per registered key that
is present in the map. -/

/-- Metric name of the always-emitted page-size gauge. -/
def pageSizeName : String := "vmstat_page_size_bytes"

/-- The line key-value parser of `VmStatCollector.Collect`: split at the
first `:` (skip when there is none), trim the key, trim the value and strip
its trailing periods, then parse it as a float; the entry exists exactly when
the parse succeeds. -/
def vmLineParse (line : Str) : Option (Str × Rat) :=
  match splitN2colon line with
  | [k, v] =>
      let key := trimSpace k
      let valueStr := dropTrailingDots (trimSpace v)
      (goParseFloat valueStr).map (fun x => (key, x))
  | _ => none

/-- The entries successively inserted into `valueMap`, in line order. -/
def vmEntries (lines : List Str) : List (Str × Rat) := lines.filterMap vmLineParse

/-- Lookup in `valueMap`: since insertion overwrites, the last inserted
binding of a key wins. -/
def vmLookup (lines : List Str) (k : Str) : Option Rat :=
  ((vmEntries lines).reverse.find? (fun e => e.1 = k)).map (fun e => e.2)

/-- One `if val, ok := valueMap[key]; ok { ch <- ... }` mapping step:
a single sample exactly when the key is present in the parsed map. -/
def vmOptSample (lines : List Str) (key : Str) (name : String) (kind : MKind) :
    List Sample :=
  match vmLookup lines key with
  | some v => [⟨name, kind, [], v⟩]
  | none => []

/-- The mapping phase of `VmStatCollector.Collect`: the 21 registered
(observation key → metric) rules, in source order. -/
def vmMapped (lines : List Str) : List Sample :=
  vmOptSample lines "Pages free".data "vmstat_pages_free_count" .gauge ++
  vmOptSample lines "Pages active".data "vmstat_pages_active_count" .gauge ++
  vmOptSample lines "Pages inactive".data "vmstat_pages_inactive_count" .gauge ++
  vmOptSample lines "Pages speculative".data "vmstat_pages_speculative_count" .gauge ++
  vmOptSample lines "Pages throttled".data "vmstat_pages_throttled_count" .gauge ++
  vmOptSample lines "Pages wired down".data "vmstat_pages_wired_count" .gauge ++
  vmOptSample lines "Pages purgeable".data "vmstat_pages_purgeable_count" .gauge ++
  vmOptSample lines "Copy-on-writes".data "vmstat_pages_cow_faults_total" .counter ++
  vmOptSample lines "Pages zero filled".data "vmstat_pages_zero_filled_total" .counter ++
  vmOptSample lines "Pages reactivated".data "vmstat_pages_reactivated_total" .counter ++
  vmOptSample lines "Pages purged".data "vmstat_pages_purged_total" .counter ++
  vmOptSample lines "File-backed pages".data "vmstat_pages_file_backed_count" .gauge ++
  vmOptSample lines "Anonymous pages".data "vmstat_pages_anonymous_count" .gauge ++
  vmOptSample lines "Pages stored in compressor".data "vmstat_pages_compressor_count" .gauge ++
  vmOptSample lines "Pages decompressed".data "vmstat_pages_decompressed_total" .counter ++
  vmOptSample lines "Pages compressed".data "vmstat_pages_compressed_total" .counter ++
  vmOptSample lines "Pageins".data "vmstat_page_ins_total" .counter ++
  vmOptSample lines "Pageouts".data "vmstat_page_outs_total" .counter ++
  vmOptSample lines "Swapins".data "vmstat_swap_ins_total" .counter ++
  vmOptSample lines "Swapouts".data "vmstat_swap_outs_total" .counter ++
  vmOptSample lines "Page faults".data "vmstat_faults_total" .counter

/-- The registered (observation key, metric name, kind) mapping rules of
`VmStatCollector.Collect`, in source order (the table `vmMapped` realizes). -/
def vmRules : List (Str × String × MKind) :=
  [("Pages free".data, "vmstat_pages_free_count", .gauge),
   ("Pages active".data, "vmstat_pages_active_count", .gauge),
   ("Pages inactive".data, "vmstat_pages_inactive_count", .gauge),
   ("Pages speculative".data, "vmstat_pages_speculative_count", .gauge),
   ("Pages throttled".data, "vmstat_pages_throttled_count", .gauge),
   ("Pages wired down".data, "vmstat_pages_wired_count", .gauge),
   ("Pages purgeable".data, "vmstat_pages_purgeable_count", .gauge),
   ("Copy-on-writes".data, "vmstat_pages_cow_faults_total", .counter),
   ("Pages zero filled".data, "vmstat_pages_zero_filled_total", .counter),
   ("Pages reactivated".data, "vmstat_pages_reactivated_total", .counter),
   ("Pages purged".data, "vmstat_pages_purged_total", .counter),
   ("File-backed pages".data, "vmstat_pages_file_backed_count", .gauge),
   ("Anonymous pages".data, "vmstat_pages_anonymous_count", .gauge),
   ("Pages stored in compressor".data, "vmstat_pages_compressor_count", .gauge),
   ("Pages decompressed".data, "vmstat_pages_decompressed_total", .counter),
   ("Pages compressed".data, "vmstat_pages_compressed_total", .counter),
   ("Pageins".data, "vmstat_page_ins_total", .counter),
   ("Pageouts".data, "vmstat_page_outs_total", .counter),
   ("Swapins".data, "vmstat_swap_ins_total", .counter),
   ("Swapouts".data, "vmstat_swap_outs_total", .counter),
   ("Page faults".data, "vmstat_faults_total", .counter)]

/-- Model of `VmStatCollector.Collect`: the page-size sample (value from the operating
environment's page size) is emitted first, before the `vm_stat` invocation;
on command failure the error is logged and nothing else is emitted; on
success the parsed map is fed through the mapping rules. -/
def vmStatCollect (pageSize : Rat) (res : Option (List Str)) : List Sample :=
  ⟨pageSizeName, .gauge, [], pageSize⟩ ::
    match res with
    | none => []
    | some lines => vmMapped lines

/-! ## JSON monitor collector (`MacMonCollector.Collect`)

The collector runs `macmon pipe -s 1` and `json.Unmarshal`s each output line
into a `MacMonOutput` record; a line that fails to decode is logged and
skipped.  The JSON text grammar itself is the Go standard library's, outside
this repository: a line is modelled as either `malformed` (text that is not
valid JSON) or the JSON value it denotes, and `unmarshalMacMon` models
`encoding/json`'s decoding of that value into the `MacMonOutput` struct. -/

/-- A JSON value (string scalars and object keys as character lists). -/
inductive Json where
  | null
  | bool (b : Bool)
  | num (q : Rat)
  | str (s : Str)
  | arr (elems : List Json)
  | obj (members : List (Str × Json))

/-- One line of `macmon` output: either text that is not valid JSON, or the
JSON value the line denotes. -/
inductive RawLine where
  | malformed
  | json (j : Json)

/-- The `Temp` sub-struct of `MacMonOutput`. -/
structure MMTemp where
  cpu_temp_avg : Rat := 0
  gpu_temp_avg : Rat := 0
deriving DecidableEq

/-- The `Memory` sub-struct of `MacMonOutput` (`int64` fields). -/
structure MMMemory where
  ram_total : Int := 0
  ram_usage : Int := 0
  swap_total : Int := 0
  swap_usage : Int := 0
deriving DecidableEq

/-- The `MacMonOutput` struct: every field starts at Go's zero value, which
is what `json.Unmarshal` leaves untouched when the field's key is absent. -/
structure MacMonOutput where
  all_power : Rat := 0
  ane_power : Rat := 0
  cpu_power : Rat := 0
  gpu_power : Rat := 0
  gpu_ram_power : Rat := 0
  ram_power : Rat := 0
  sys_power : Rat := 0
  temp : MMTemp := {}
  ecpu_usage : List Rat := []
  pcpu_usage : List Rat := []
  gpu_usage : List Rat := []
  memory : MMMemory := {}
deriving DecidableEq

/-- Key matching of `encoding/json` against a lowercase field tag (Go prefers an
exact match and falls back to a case-insensitive one; with all-lowercase tags
both amount to a case-folded comparison). -/
def keyMatch (k tag : Str) : Bool := k.map Char.toLower = tag

/-- Decode a JSON value into a `float64` field: a number overwrites, `null`
is a no-op, anything else is a decode error. -/
def decFloat (v : Json) (old : Rat) : Option Rat :=
  match v with
  | .num q => some q
  | .null => some old
  | _ => none

/-- Decode a JSON value into an `int64` field: the number must be integral
and in the `int64` range, `null` is a no-op, anything else errors. -/
def decInt64 (v : Json) (old : Int) : Option Int :=
  match v with
  | .num q => if q.den = 1 ∧ -(2 ^ 63) ≤ q.num ∧ q.num < 2 ^ 63 then some q.num else none
  | .null => some old
  | _ => none

/-- Decode a JSON value into a `[]float64` field: an array of numbers (a
`null` element leaves that element's zero value) replaces the slice, `null`
is a no-op, anything else errors. -/
def decFloatArr (v : Json) (old : List Rat) : Option (List Rat) :=
  match v with
  | .null => some old
  | .arr es =>
      es.mapM (fun e =>
        match e with
        | Json.num q => some q
        | Json.null => some (0 : Rat)
        | _ => none)
  | _ => none

/-- Apply one object member to the `Temp` sub-struct. -/
def applyTempMember (t : MMTemp) (m : Str × Json) : Option MMTemp :=
  if keyMatch m.1 "cpu_temp_avg".data then
    (decFloat m.2 t.cpu_temp_avg).map (fun x => { t with cpu_temp_avg := x })
  else if keyMatch m.1 "gpu_temp_avg".data then
    (decFloat m.2 t.gpu_temp_avg).map (fun x => { t with gpu_temp_avg := x })
  else some t

/-- Decode a JSON value into the `Temp` sub-struct (members in order, unknown
keys ignored, `null` a no-op, non-object an error). -/
def decTemp (v : Json) (old : MMTemp) : Option MMTemp :=
  match v with
  | .null => some old
  | .obj ms => ms.foldlM applyTempMember old
  | _ => none

/-- Apply one object member to the `Memory` sub-struct. -/
def applyMemoryMember (t : MMMemory) (m : Str × Json) : Option MMMemory :=
  if keyMatch m.1 "ram_total".data then
    (decInt64 m.2 t.ram_total).map (fun x => { t with ram_total := x })
  else if keyMatch m.1 "ram_usage".data then
    (decInt64 m.2 t.ram_usage).map (fun x => { t with ram_usage := x })
  else if keyMatch m.1 "swap_total".data then
    (decInt64 m.2 t.swap_total).map (fun x => { t with swap_total := x })
  else if keyMatch m.1 "swap_usage".data then
    (decInt64 m.2 t.swap_usage).map (fun x => { t with swap_usage := x })
  else some t

/-- Decode a JSON value into the `Memory` sub-struct. -/
def decMemory (v : Json) (old : MMMemory) : Option MMMemory :=
  match v with
  | .null => some old
  | .obj ms => ms.foldlM applyMemoryMember old
  | _ => none

/-- Field updates of `MacMonOutput`, one per tagged struct field. -/
def setAllPower (d : MacMonOutput) (x : Rat) : MacMonOutput := { d with all_power := x }

def setAnePower (d : MacMonOutput) (x : Rat) : MacMonOutput := { d with ane_power := x }

def setCpuPower (d : MacMonOutput) (x : Rat) : MacMonOutput := { d with cpu_power := x }

def setGpuPower (d : MacMonOutput) (x : Rat) : MacMonOutput := { d with gpu_power := x }

def setGpuRamPower (d : MacMonOutput) (x : Rat) : MacMonOutput := { d with gpu_ram_power := x }

def setRamPower (d : MacMonOutput) (x : Rat) : MacMonOutput := { d with ram_power := x }

def setSysPower (d : MacMonOutput) (x : Rat) : MacMonOutput := { d with sys_power := x }

def setTemp (d : MacMonOutput) (x : MMTemp) : MacMonOutput := { d with temp := x }

def setEcpuUsage (d : MacMonOutput) (x : List Rat) : MacMonOutput := { d with ecpu_usage := x }

def setPcpuUsage (d : MacMonOutput) (x : List Rat) : MacMonOutput := { d with pcpu_usage := x }

def setGpuUsage (d : MacMonOutput) (x : List Rat) : MacMonOutput := { d with gpu_usage := x }

def setMemory (d : MacMonOutput) (x : MMMemory) : MacMonOutput := { d with memory := x }

/-- Apply one top-level object member to a `MacMonOutput` under decoding:
members whose key matches no field tag are ignored; a member whose value has
the wrong shape for its field makes the whole record fail to decode. -/
def applyMember (d : MacMonOutput) (m : Str × Json) : Option MacMonOutput :=
  if keyMatch m.1 "all_power".data then (decFloat m.2 d.all_power).map (setAllPower d)
  else if keyMatch m.1 "ane_power".data then (decFloat m.2 d.ane_power).map (setAnePower d)
  else if keyMatch m.1 "cpu_power".data then (decFloat m.2 d.cpu_power).map (setCpuPower d)
  else if keyMatch m.1 "gpu_power".data then (decFloat m.2 d.gpu_power).map (setGpuPower d)
  else if keyMatch m.1 "gpu_ram_power".data then
    (decFloat m.2 d.gpu_ram_power).map (setGpuRamPower d)
  else if keyMatch m.1 "ram_power".data then (decFloat m.2 d.ram_power).map (setRamPower d)
  else if keyMatch m.1 "sys_power".data then (decFloat m.2 d.sys_power).map (setSysPower d)
  else if keyMatch m.1 "temp".data then (decTemp m.2 d.temp).map (setTemp d)
  else if keyMatch m.1 "ecpu_usage".data then
    (decFloatArr m.2 d.ecpu_usage).map (setEcpuUsage d)
  else if keyMatch m.1 "pcpu_usage".data then
    (decFloatArr m.2 d.pcpu_usage).map (setPcpuUsage d)
  else if keyMatch m.1 "gpu_usage".data then
    (decFloatArr m.2 d.gpu_usage).map (setGpuUsage d)
  else if keyMatch m.1 "memory".data then (decMemory m.2 d.memory).map (setMemory d)
  else some d

/-- Model of `json.Unmarshal([]byte(line), &data)` for a fresh
`MacMonOutput`: a top-level `null` is a successful no-op (Go leaves the zero
struct), a top-level object applies its members in order (later duplicates
overwrite), and any other top-level value is a decode error. -/
def unmarshalMacMon (j : Json) : Option MacMonOutput :=
  match j with
  | .null => some {}
  | .obj ms => ms.foldlM applyMember {}
  | _ => none

/-- Decode one raw output line. -/
def macmonDecodeLine : RawLine → Option MacMonOutput
  | .malformed => none
  | .json j => unmarshalMacMon j

/-- The samples emitted for one successfully decoded record, in source order:
nine unconditional scalar gauges, the three frequency/usage pairs guarded by
their array length, then four unconditional memory gauges. -/
def emitRecord (d : MacMonOutput) : List Sample :=
  [⟨"macmon_all_power_watts", .gauge, [], d.all_power⟩,
   ⟨"macmon_ane_power_watts", .gauge, [], d.ane_power⟩,
   ⟨"macmon_cpu_power_watts", .gauge, [], d.cpu_power⟩,
   ⟨"macmon_gpu_power_watts", .gauge, [], d.gpu_power⟩,
   ⟨"macmon_gpu_ram_power_watts", .gauge, [], d.gpu_ram_power⟩,
   ⟨"macmon_ram_power_watts", .gauge, [], d.ram_power⟩,
   ⟨"macmon_sys_power_watts", .gauge, [], d.sys_power⟩,
   ⟨"macmon_cpu_temperature_celsius", .gauge, [], d.temp.cpu_temp_avg⟩,
   ⟨"macmon_gpu_temperature_celsius", .gauge, [], d.temp.gpu_temp_avg⟩] ++
  (if 2 ≤ d.ecpu_usage.length then
    [⟨"macmon_ecpu_frequency_megahertz", .gauge, [], d.ecpu_usage.getD 0 0⟩,
     ⟨"macmon_ecpu_usage_percent", .gauge, [], d.ecpu_usage.getD 1 0⟩]
   else []) ++
  (if 2 ≤ d.pcpu_usage.length then
    [⟨"macmon_pcpu_frequency_megahertz", .gauge, [], d.pcpu_usage.getD 0 0⟩,
     ⟨"macmon_pcpu_usage_percent", .gauge, [], d.pcpu_usage.getD 1 0⟩]
   else []) ++
  (if 2 ≤ d.gpu_usage.length then
    [⟨"macmon_gpu_frequency_megahertz", .gauge, [], d.gpu_usage.getD 0 0⟩,
     ⟨"macmon_gpu_usage_percent", .gauge, [], d.gpu_usage.getD 1 0⟩]
   else []) ++
  [⟨"macmon_memory_ram_total_bytes", .gauge, [], (d.memory.ram_total : Rat)⟩,
   ⟨"macmon_memory_ram_used_bytes", .gauge, [], (d.memory.ram_usage : Rat)⟩,
   ⟨"macmon_memory_swap_total_bytes", .gauge, [], (d.memory.swap_total : Rat)⟩,
   ⟨"macmon_memory_swap_used_bytes", .gauge, [], (d.memory.swap_usage : Rat)⟩]

/-- The scanner loop of `MacMonCollector.Collect`: a line that fails to
decode is logged and skipped (`continue`); processing always reaches the
next line. -/
def macmonRun : List RawLine → List Sample
  | [] => []
  | l :: rest =>
      match macmonDecodeLine l with
      | none => macmonRun rest
      | some d => emitRecord d ++ macmonRun rest

/-- Model of `MacMonCollector.Collect` with the external invocation modelled by an
`Option`. -/
def macmonCollect : Option (List RawLine) → List Sample
  | none => []
  | some lines => macmonRun lines

/-! ## Collection orchestration

`server.Start` registers the powermetrics collector and then the vm_stat
collector with the Prometheus registry; a scrape runs each registered
collector's `Collect`.  A collector whose external command fails logs the
error and contributes no parsed samples, independently of the others. -/

/-- One collection cycle over the registered collectors, in registration
order, each with its own captured-output outcome. -/
def collectAll (pmRes : Option (List Str)) (pageSize : Rat)
    (vmRes : Option (List Str)) : List Sample :=
  powermetricsCollect pmRes ++ vmStatCollect pageSize vmRes

/-! ## Statement vocabulary -/

/-- Adjacent token pairs of a token list: `(ts[i], ts[i+1])` for each `i`
with a successor — the pairs the marker loops inspect. -/
def adjPairs (ts : List Str) : List (Str × Str) := ts.zip ts.tail

/-- The samples of a list carrying a given metric name. -/
def byName (n : String) (ss : List Sample) : List Sample :=
  ss.filter (fun s => s.name = n)

/-- The power value a line yields: the parse of the token following the
first `"Power:"` token that has a successor. -/
def powerVal (line : Str) : Option Rat :=
  (firstSuccessor powerTok (fields line)).bind goParseFloat

/-- The thirteen unconditionally emitted scalar metrics of `emitRecord`,
each with the record field it reports. -/
def macmonScalarRules : List (String × (MacMonOutput → Rat)) :=
  [("macmon_all_power_watts", fun d => d.all_power),
   ("macmon_ane_power_watts", fun d => d.ane_power),
   ("macmon_cpu_power_watts", fun d => d.cpu_power),
   ("macmon_gpu_power_watts", fun d => d.gpu_power),
   ("macmon_gpu_ram_power_watts", fun d => d.gpu_ram_power),
   ("macmon_ram_power_watts", fun d => d.ram_power),
   ("macmon_sys_power_watts", fun d => d.sys_power),
   ("macmon_cpu_temperature_celsius", fun d => d.temp.cpu_temp_avg),
   ("macmon_gpu_temperature_celsius", fun d => d.temp.gpu_temp_avg),
   ("macmon_memory_ram_total_bytes", fun d => (d.memory.ram_total : Rat)),
   ("macmon_memory_ram_used_bytes", fun d => (d.memory.ram_usage : Rat)),
   ("macmon_memory_swap_total_bytes", fun d => (d.memory.swap_total : Rat)),
   ("macmon_memory_swap_used_bytes", fun d => (d.memory.swap_usage : Rat))]

/-! ## Supporting lemmas -/

theorem adjPairs_cons₂ (a b : Str) (rest : List Str) :
    adjPairs (a :: b :: rest) = (a, b) :: adjPairs (b :: rest) := rfl

theorem mem_adjPairs_left {x y : Str} {ts : List Str}
    (h : (x, y) ∈ adjPairs ts) : x ∈ ts :=
  (List.of_mem_zip h).1

theorem fields_ne_nil {t : Str} {s : Str} (h : t ∈ fields s) : t ≠ [] := by
  unfold fields at h
  have := List.of_mem_filter h
  simpa [List.isEmpty_iff] using this

theorem byName_append (n : String) (a b : List Sample) :
    byName n (a ++ b) = byName n a ++ byName n b := by
  unfold byName
  exact List.filter_append a b

theorem byName_eq_nil {n : String} {ss : List Sample}
    (h : ∀ s ∈ ss, s.name ≠ n) : byName n ss = [] := by
  unfold byName
  rw [List.filter_eq_nil_iff]
  intro s hs
  simpa using h s hs

theorem cpuPowerStep_shape (c : Bool) (line : Str) :
    cpuPowerStep c line = ([], c) ∨
    ∃ v, cpuPowerStep c line = ([⟨cpuPowerName, .gauge, [], v⟩], true) ∧
      c = false ∧ cpuPowerGuard line = true ∧ powerVal line = some v := by
  unfold cpuPowerStep
  split
  · rename_i hg
    cases hfs : firstSuccessor powerTok (fields line) with
    | none => left; simp
    | some t =>
        cases hp : goParseFloat t with
        | none => left; simp [hp]
        | some v =>
            right
            refine ⟨v, by simp [hp], ?_, ?_, ?_⟩
            · cases c
              · rfl
              · simp at hg
            · cases hc : cpuPowerGuard line
              · rw [hc] at hg; simp at hg
              · rfl
            · simp [powerVal, hfs, hp]
  · left; rfl

theorem gpuPowerStep_shape (g : Bool) (line : Str) :
    gpuPowerStep g line = ([], g) ∨
    ∃ v, gpuPowerStep g line = ([⟨gpuPowerName, .gauge, [], v⟩], true) ∧
      g = false ∧ gpuPowerGuard line = true ∧ powerVal line = some v := by
  unfold gpuPowerStep
  split
  · rename_i hg
    cases hfs : firstSuccessor powerTok (fields line) with
    | none => left; simp
    | some t =>
        cases hp : goParseFloat t with
        | none => left; simp [hp]
        | some v =>
            right
            refine ⟨v, by simp [hp], ?_, ?_, ?_⟩
            · cases g
              · rfl
              · simp at hg
            · cases hc : gpuPowerGuard line
              · rw [hc] at hg; simp at hg
              · rfl
            · simp [powerVal, hfs, hp]
  · left; rfl

theorem freqStep_shape (line : Str) :
    freqStep line = [] ∨
    ∃ core val, freqStep line = [⟨cpuFreqName, .gauge, [cpuLabel core], val⟩] := by
  simp only [freqStep]
  split
  · split
    · right; exact ⟨_, _, rfl⟩
    · left; rfl
  · left; rfl

theorem activeResStep_shape (line : Str) :
    activeResStep line = [] ∨
    ∃ core val, activeResStep line = [⟨cpuActiveResName, .gauge, [cpuLabel core], val⟩] := by
  simp only [activeResStep]
  split
  · split
    · right; exact ⟨_, _, rfl⟩
    · left; rfl
  · left; rfl

theorem idleResStep_shape (line : Str) :
    idleResStep line = [] ∨
    ∃ core val, idleResStep line = [⟨cpuIdleResName, .gauge, [cpuLabel core], val⟩] := by
  simp only [idleResStep]
  split
  · split
    · right; exact ⟨_, _, rfl⟩
    · left; rfl
  · left; rfl

theorem gpuActiveResStep_shape (line : Str) :
    gpuActiveResStep line = [] ∨
    ∃ v, gpuActiveResStep line = [⟨gpuActiveResName, .gauge, [], v⟩] := by
  unfold gpuActiveResStep
  split
  · cases hfs : firstSuccessor resTok (fields line) with
    | none => left; simp [hfs]
    | some t =>
        cases hp : goParseFloat (trimSuffixPercent t) with
        | none => left; simp [hfs, hp]
        | some v => right; exact ⟨v, by simp [hfs, hp]⟩
  · left; rfl

theorem gpuIdleResStep_shape (line : Str) :
    gpuIdleResStep line = [] ∨
    ∃ v, gpuIdleResStep line = [⟨gpuIdleResName, .gauge, [], v⟩] := by
  unfold gpuIdleResStep
  split
  · cases hfs : firstSuccessor resTok (fields line) with
    | none => left; simp [hfs]
    | some t =>
        cases hp : goParseFloat (trimSuffixPercent t) with
        | none => left; simp [hfs, hp]
        | some v => right; exact ⟨v, by simp [hfs, hp]⟩
  · left; rfl

theorem mem_adjPairs_right {x y : Str} {ts : List Str}
    (h : (x, y) ∈ adjPairs ts) : y ∈ ts := by
  have := (List.of_mem_zip h).2
  exact List.mem_of_mem_tail this

theorem markerScan_core_stable (m : Str) (u : Str → Rat → Rat) :
    ∀ ts c v, (∀ p ∈ adjPairs ts, p.1 ≠ cpuTok) →
      (markerScan m u ts c v).1 = c := by
  intro ts
  induction ts with
  | nil => intro c v _; rfl
  | cons a rest ih =>
      cases rest with
      | nil => intro c v _; rfl
      | cons b rest2 =>
          intro c v h
          have hne : a ≠ cpuTok := h (a, b) (by rw [adjPairs_cons₂]; exact List.mem_cons_self _ _)
          simp only [markerScan]
          rw [if_neg hne]
          exact ih c _ (fun p hp => h p (by rw [adjPairs_cons₂]; exact List.mem_cons_of_mem _ hp))

theorem markerScan_core_eq_or (m : Str) (u : Str → Rat → Rat) :
    ∀ ts c v, (markerScan m u ts c v).1 = c ∨
      ∃ b, (cpuTok, b) ∈ adjPairs ts ∧ (markerScan m u ts c v).1 = b := by
  intro ts
  induction ts with
  | nil => intro c v; left; rfl
  | cons a rest ih =>
      cases rest with
      | nil => intro c v; left; rfl
      | cons b rest2 =>
          intro c v
          simp only [markerScan]
          rcases ih (if a = cpuTok then b else c) (if a = m then u b v else v) with
            h | ⟨b2, hb2, hres⟩
          · rw [h]
            by_cases hac : a = cpuTok
            · right
              refine ⟨b, ?_, by rw [if_pos hac]⟩
              rw [adjPairs_cons₂, ← hac]
              exact List.mem_cons_self _ _
            · left; rw [if_neg hac]
          · right
            exact ⟨b2, by rw [adjPairs_cons₂]; exact List.mem_cons_of_mem _ hb2, hres⟩

theorem markerScan_core_exists (m : Str) (u : Str → Rat → Rat) :
    ∀ ts c v, (∃ b, (cpuTok, b) ∈ adjPairs ts) →
      ∃ b, (cpuTok, b) ∈ adjPairs ts ∧ (markerScan m u ts c v).1 = b := by
  intro ts
  induction ts with
  | nil => intro c v ⟨b, hb⟩; exact absurd hb (by simp [adjPairs])
  | cons a rest ih =>
      cases rest with
      | nil => intro c v ⟨b, hb⟩; exact absurd hb (by simp [adjPairs])
      | cons b rest2 =>
          intro c v ⟨b0, hb0⟩
          simp only [markerScan]
          by_cases htail : ∃ b2, (cpuTok, b2) ∈ adjPairs (b :: rest2)
          · rcases ih (if a = cpuTok then b else c) (if a = m then u b v else v) htail with
              ⟨b2, hb2, hres⟩
            exact ⟨b2, by rw [adjPairs_cons₂]; exact List.mem_cons_of_mem _ hb2, hres⟩
          · rw [adjPairs_cons₂] at hb0
            rcases List.mem_cons.mp hb0 with heq | hmem
            · have ha : a = cpuTok := by
                have := congrArg Prod.fst heq
                simpa using this.symm
              have hb0b : b0 = b := by
                have := congrArg Prod.snd heq
                simpa using this
              refine ⟨b, by rw [adjPairs_cons₂, ← ha]; simpa [hb0b] using hb0, ?_⟩
              rw [if_pos ha]
              exact markerScan_core_stable m u _ _ _
                (fun p hp hcpu => htail ⟨p.2, by rw [← hcpu]; simpa using hp⟩)
            · exact absurd ⟨b0, hmem⟩ htail

theorem markerScan_val_stable (m : Str) (u : Str → Rat → Rat) :
    ∀ ts c v, (∀ p ∈ adjPairs ts, p.1 = m → ∀ v2, u p.2 v2 = v2) →
      (markerScan m u ts c v).2 = v := by
  intro ts
  induction ts with
  | nil => intro c v _; rfl
  | cons a rest ih =>
      cases rest with
      | nil => intro c v _; rfl
      | cons b rest2 =>
          intro c v h
          simp only [markerScan]
          have htail : ∀ p ∈ adjPairs (b :: rest2), p.1 = m → ∀ v2, u p.2 v2 = v2 :=
            fun p hp => h p (by rw [adjPairs_cons₂]; exact List.mem_cons_of_mem _ hp)
          by_cases ham : a = m
          · rw [if_pos ham]
            rw [ih _ _ htail]
            exact h (a, b) (by rw [adjPairs_cons₂]; exact List.mem_cons_self _ _) ham v
          · rw [if_neg ham]
            exact ih _ _ htail

theorem markerScan_val_eq_or (m : Str) (u : Str → Rat → Rat) :
    ∀ ts c v, (markerScan m u ts c v).2 = v ∨
      ∃ b prev, (m, b) ∈ adjPairs ts ∧ (markerScan m u ts c v).2 = u b prev ∧
        u b prev ≠ prev := by
  intro ts
  induction ts with
  | nil => intro c v; left; rfl
  | cons a rest ih =>
      cases rest with
      | nil => intro c v; left; rfl
      | cons b rest2 =>
          intro c v
          simp only [markerScan]
          rcases ih (if a = cpuTok then b else c) (if a = m then u b v else v) with
            h | ⟨b2, prev, hb2, hres, hne⟩
          · rw [h]
            by_cases ham : a = m
            · rw [if_pos ham]
              by_cases hub : u b v = v
              · left; exact hub
              · right
                exact ⟨b, v, by rw [adjPairs_cons₂, ← ham]; exact List.mem_cons_self _ _,
                  rfl, hub⟩
            · left; rw [if_neg ham]
          · right
            exact ⟨b2, prev, by rw [adjPairs_cons₂]; exact List.mem_cons_of_mem _ hb2,
              hres, hne⟩

theorem markerScan_val_unique (m : Str) (u : Str → Rat → Rat) :
    ∀ ts c v b, ts.count m ≤ 1 → (m, b) ∈ adjPairs ts →
      (markerScan m u ts c v).2 = u b v := by
  intro ts
  induction ts with
  | nil => intro c v b _ hb; exact absurd hb (by simp [adjPairs])
  | cons a rest ih =>
      cases rest with
      | nil => intro c v b _ hb; exact absurd hb (by simp [adjPairs])
      | cons b2 rest2 =>
          intro c v b hcount hb
          simp only [markerScan]
          rw [adjPairs_cons₂] at hb
          by_cases ham : a = m
          · have htailzero : (b2 :: rest2).count m = 0 := by
              have : (a :: b2 :: rest2).count m = (b2 :: rest2).count m + 1 := by
                rw [List.count_cons]
                simp [ham]
              omega
            have hnomem : m ∉ (b2 :: rest2) := by
              intro hmem
              have := List.count_pos_iff.mpr hmem
              omega

            rcases List.mem_cons.mp hb with heq | hmem
            · have hbb : b = b2 := by
                have := congrArg Prod.snd heq
                simpa using this
              subst hbb
              rw [if_pos ham]
              refine markerScan_val_stable m u _ _ _ ?_
              intro p hp hpm v2
              exact absurd (by rw [← hpm]; exact mem_adjPairs_left (by simpa using hp))
                hnomem
            · exact absurd (mem_adjPairs_left hmem) hnomem
          · have hbtail : (m, b) ∈ adjPairs (b2 :: rest2) := by
              rcases List.mem_cons.mp hb with heq | hmem
              · have hma : m = a := by simpa using congrArg Prod.fst heq
                exact absurd hma.symm ham
              · exact hmem
            have hcount2 : (b2 :: rest2).count m ≤ 1 := by
              have hle : (b2 :: rest2).count m ≤ (a :: b2 :: rest2).count m := by
                conv_rhs => rw [List.count_cons]
                exact Nat.le_add_right _ _
              omega
            rw [if_neg ham]
            exact ih _ _ b hcount2 hbtail

theorem byName_single_ne {n n' : String} (h : ¬ n' = n) (k : MKind) (ls : List Str)
    (v : Rat) : byName n [⟨n', k, ls, v⟩] = [] := by
  simp [byName, h]

theorem byName_cpuPowerStep_ne {n : String} (h : ¬ cpuPowerName = n) (c : Bool)
    (line : Str) : byName n (cpuPowerStep c line).1 = [] := by
  rcases cpuPowerStep_shape c line with hs | ⟨v, hs, -, -, -⟩ <;>
    simp [hs, byName, h]

theorem byName_gpuPowerStep_ne {n : String} (h : ¬ gpuPowerName = n) (g : Bool)
    (line : Str) : byName n (gpuPowerStep g line).1 = [] := by
  rcases gpuPowerStep_shape g line with hs | ⟨v, hs, -, -, -⟩ <;>
    simp [hs, byName, h]

theorem byName_freqStep_ne {n : String} (h : ¬ cpuFreqName = n) (line : Str) :
    byName n (freqStep line) = [] := by
  rcases freqStep_shape line with hs | ⟨core, val, hs⟩ <;> simp [hs, byName, h]

theorem byName_activeResStep_ne {n : String} (h : ¬ cpuActiveResName = n) (line : Str) :
    byName n (activeResStep line) = [] := by
  rcases activeResStep_shape line with hs | ⟨core, val, hs⟩ <;> simp [hs, byName, h]

theorem byName_idleResStep_ne {n : String} (h : ¬ cpuIdleResName = n) (line : Str) :
    byName n (idleResStep line) = [] := by
  rcases idleResStep_shape line with hs | ⟨core, val, hs⟩ <;> simp [hs, byName, h]

theorem byName_gpuActiveResStep_ne {n : String} (h : ¬ gpuActiveResName = n) (line : Str) :
    byName n (gpuActiveResStep line) = [] := by
  rcases gpuActiveResStep_shape line with hs | ⟨v, hs⟩ <;> simp [hs, byName, h]

theorem byName_gpuIdleResStep_ne {n : String} (h : ¬ gpuIdleResName = n) (line : Str) :
    byName n (gpuIdleResStep line) = [] := by
  rcases gpuIdleResStep_shape line with hs | ⟨v, hs⟩ <;> simp [hs, byName, h]

theorem pmRun_cons (c g : Bool) (line : Str) (rest : List Str) :
    pmRun c g (line :: rest) =
      (pmLineStep c g line).1 ++
        pmRun (pmLineStep c g line).2.1 (pmLineStep c g line).2.2 rest := rfl

theorem pmLineStep_cpuFlag (c g : Bool) (line : Str) :
    (pmLineStep c g line).2.1 = (cpuPowerStep c line).2 := rfl

theorem pmLineStep_gpuFlag (c g : Bool) (line : Str) :
    (pmLineStep c g line).2.2 = (gpuPowerStep g line).2 := rfl

theorem byName_pmLineStep_cpu (c g : Bool) (line : Str) :
    byName cpuPowerName (pmLineStep c g line).1 =
      byName cpuPowerName (cpuPowerStep c line).1 := by
  simp only [pmLineStep]
  rw [byName_append, byName_append, byName_append, byName_append, byName_append,
    byName_append]
  rw [byName_gpuPowerStep_ne (by decide), byName_freqStep_ne (by decide),
    byName_activeResStep_ne (by decide), byName_idleResStep_ne (by decide),
    byName_gpuActiveResStep_ne (by decide), byName_gpuIdleResStep_ne (by decide)]
  simp

theorem byName_pmLineStep_gpu (c g : Bool) (line : Str) :
    byName gpuPowerName (pmLineStep c g line).1 =
      byName gpuPowerName (gpuPowerStep g line).1 := by
  simp only [pmLineStep]
  rw [byName_append, byName_append, byName_append, byName_append, byName_append,
    byName_append]
  rw [byName_cpuPowerStep_ne (by decide), byName_freqStep_ne (by decide),
    byName_activeResStep_ne (by decide), byName_idleResStep_ne (by decide),
    byName_gpuActiveResStep_ne (by decide), byName_gpuIdleResStep_ne (by decide)]
  simp

theorem cpuPowerStep_sent (line : Str) : cpuPowerStep true line = ([], true) := by
  unfold cpuPowerStep
  simp

theorem gpuPowerStep_sent (line : Str) : gpuPowerStep true line = ([], true) := by
  unfold gpuPowerStep
  simp

theorem cpuPowerStep_no_guard {line : Str} (h : cpuPowerGuard line = false) (c : Bool) :
    cpuPowerStep c line = ([], c) := by
  unfold cpuPowerStep
  rw [h]
  simp

theorem gpuPowerStep_no_guard {line : Str} (h : gpuPowerGuard line = false) (g : Bool) :
    gpuPowerStep g line = ([], g) := by
  unfold gpuPowerStep
  rw [h]
  simp

theorem cpuPowerStep_emit {line : Str} {v : Rat} (hg : cpuPowerGuard line = true)
    (hv : powerVal line = some v) :
    cpuPowerStep false line = ([⟨cpuPowerName, .gauge, [], v⟩], true) := by
  cases hfs : firstSuccessor powerTok (fields line) with
  | none => rw [powerVal, hfs] at hv; simp at hv
  | some t =>
      rw [powerVal, hfs] at hv
      rw [Option.some_bind] at hv
      simp [cpuPowerStep, hg, hfs, hv]

theorem gpuPowerStep_emit {line : Str} {v : Rat} (hg : gpuPowerGuard line = true)
    (hv : powerVal line = some v) :
    gpuPowerStep false line = ([⟨gpuPowerName, .gauge, [], v⟩], true) := by
  cases hfs : firstSuccessor powerTok (fields line) with
  | none => rw [powerVal, hfs] at hv; simp at hv
  | some t =>
      rw [powerVal, hfs] at hv
      rw [Option.some_bind] at hv
      simp [gpuPowerStep, hg, hfs, hv]

theorem pmRun_cpu_sent : ∀ (ls : List Str) (g : Bool),
    byName cpuPowerName (pmRun true g ls) = [] := by
  intro ls
  induction ls with
  | nil => intro g; rfl
  | cons line rest ih =>
      intro g
      rw [pmRun_cons, byName_append, byName_pmLineStep_cpu]
      rw [show (pmLineStep true g line).2.1 = true from by
        rw [pmLineStep_cpuFlag, cpuPowerStep_sent]]
      rw [cpuPowerStep_sent, ih]
      simp [byName]

theorem pmRun_gpu_sent : ∀ (ls : List Str) (c : Bool),
    byName gpuPowerName (pmRun c true ls) = [] := by
  intro ls
  induction ls with
  | nil => intro c; rfl
  | cons line rest ih =>
      intro c
      rw [pmRun_cons, byName_append, byName_pmLineStep_gpu]
      rw [show (pmLineStep c true line).2.2 = true from by
        rw [pmLineStep_gpuFlag, gpuPowerStep_sent]]
      rw [gpuPowerStep_sent, ih]
      simp [byName]

theorem pmRun_cpu_le_one : ∀ (ls : List Str) (g : Bool),
    (byName cpuPowerName (pmRun false g ls)).length ≤ 1 := by
  intro ls
  induction ls with
  | nil => intro g; simp [pmRun, byName]
  | cons line rest ih =>
      intro g
      rw [pmRun_cons, byName_append, byName_pmLineStep_cpu]
      rcases cpuPowerStep_shape false line with hs | ⟨v, hs, -, -, -⟩
      · rw [hs, show (pmLineStep false g line).2.1 = false from by
          rw [pmLineStep_cpuFlag, hs]]
        simpa [byName] using ih _
      · rw [hs, show (pmLineStep false g line).2.1 = true from by
          rw [pmLineStep_cpuFlag, hs]]
        rw [pmRun_cpu_sent]
        simp [byName]

theorem pmRun_gpu_le_one : ∀ (ls : List Str) (c : Bool),
    (byName gpuPowerName (pmRun c false ls)).length ≤ 1 := by
  intro ls
  induction ls with
  | nil => intro c; simp [pmRun, byName]
  | cons line rest ih =>
      intro c
      rw [pmRun_cons, byName_append, byName_pmLineStep_gpu]
      rcases gpuPowerStep_shape false line with hs | ⟨v, hs, -, -, -⟩
      · rw [hs, show (pmLineStep c false line).2.2 = false from by
          rw [pmLineStep_gpuFlag, hs]]
        simpa [byName] using ih _
      · rw [hs, show (pmLineStep c false line).2.2 = true from by
          rw [pmLineStep_gpuFlag, hs]]
        rw [pmRun_gpu_sent]
        simp [byName]

theorem pmRun_cpu_first : ∀ (pre : List Str) (g : Bool) (line : Str)
    (post : List Str) (v : Rat), (∀ l ∈ pre, cpuPowerGuard l = false) →
    cpuPowerGuard line = true → powerVal line = some v →
    byName cpuPowerName (pmRun false g (pre ++ line :: post)) =
      [⟨cpuPowerName, .gauge, [], v⟩] := by
  intro pre
  induction pre with
  | nil =>
      intro g line post v _ hg hv
      rw [List.nil_append, pmRun_cons, byName_append, byName_pmLineStep_cpu]
      have hemit := cpuPowerStep_emit hg hv
      rw [hemit, show (pmLineStep false g line).2.1 = true from by
        rw [pmLineStep_cpuFlag, hemit]]
      rw [pmRun_cpu_sent]
      simp [byName]
  | cons p pre2 ih =>
      intro g line post v hpre hg hv
      rw [List.cons_append, pmRun_cons, byName_append, byName_pmLineStep_cpu]
      have hno := cpuPowerStep_no_guard (hpre p (List.mem_cons_self _ _)) false
      rw [hno, show (pmLineStep false g p).2.1 = false from by
        rw [pmLineStep_cpuFlag, hno]]
      have := ih (pmLineStep false g p).2.2 line post v
        (fun l hl => hpre l (List.mem_cons_of_mem _ hl)) hg hv
      simpa [byName] using this

theorem pmRun_gpu_first : ∀ (pre : List Str) (c : Bool) (line : Str)
    (post : List Str) (v : Rat), (∀ l ∈ pre, gpuPowerGuard l = false) →
    gpuPowerGuard line = true → powerVal line = some v →
    byName gpuPowerName (pmRun c false (pre ++ line :: post)) =
      [⟨gpuPowerName, .gauge, [], v⟩] := by
  intro pre
  induction pre with
  | nil =>
      intro c line post v _ hg hv
      rw [List.nil_append, pmRun_cons, byName_append, byName_pmLineStep_gpu]
      have hemit := gpuPowerStep_emit hg hv
      rw [hemit, show (pmLineStep c false line).2.2 = true from by
        rw [pmLineStep_gpuFlag, hemit]]
      rw [pmRun_gpu_sent]
      simp [byName]
  | cons p pre2 ih =>
      intro c line post v hpre hg hv
      rw [List.cons_append, pmRun_cons, byName_append, byName_pmLineStep_gpu]
      have hno := gpuPowerStep_no_guard (hpre p (List.mem_cons_self _ _)) false
      rw [hno, show (pmLineStep c false p).2.2 = false from by
        rw [pmLineStep_gpuFlag, hno]]
      have := ih (pmLineStep c false p).2.1 line post v
        (fun l hl => hpre l (List.mem_cons_of_mem _ hl)) hg hv
      simpa [byName] using this

theorem byName_vmOptSample_ne {n n2 : String} (h : ¬ n = n2) (lines : List Str)
    (k : Str) (kind : MKind) : byName n2 (vmOptSample lines k n kind) = [] := by
  unfold vmOptSample
  cases vmLookup lines k with
  | none => rfl
  | some v => simp [byName, h]

theorem byName_vmOptSample_eq (lines : List Str) (k : Str) (n : String)
    (kind : MKind) : byName n (vmOptSample lines k n kind) = vmOptSample lines k n kind := by
  unfold vmOptSample
  cases vmLookup lines k with
  | none => rfl
  | some v => simp [byName]

/-! ## Claims -/

/-- C1: within one powermetrics capture, at most one CPU-power and at most
one GPU-power sample are emitted; and when the first line matching the
CPU-power (resp. GPU-power) marker plus `mW` unit yields a power value, the
single emitted sample carries exactly that first match's value — later
matching lines for the already-satisfied metric are ignored. -/
theorem claim_C1 :
    (∀ lines : List Str,
        (byName cpuPowerName (powermetricsParse lines)).length ≤ 1 ∧
        (byName gpuPowerName (powermetricsParse lines)).length ≤ 1) ∧
    (∀ (pre : List Str) (line : Str) (post : List Str) (v : Rat),
        (∀ l ∈ pre, cpuPowerGuard l = false) → cpuPowerGuard line = true →
        powerVal line = some v →
        byName cpuPowerName (powermetricsParse (pre ++ line :: post)) =
          [⟨cpuPowerName, .gauge, [], v⟩]) ∧
    (∀ (pre : List Str) (line : Str) (post : List Str) (v : Rat),
        (∀ l ∈ pre, gpuPowerGuard l = false) → gpuPowerGuard line = true →
        powerVal line = some v →
        byName gpuPowerName (powermetricsParse (pre ++ line :: post)) =
          [⟨gpuPowerName, .gauge, [], v⟩]) := by
  refine ⟨fun lines => ⟨pmRun_cpu_le_one lines false, pmRun_gpu_le_one lines false⟩,
    ?_, ?_⟩
  · intro pre line post v h1 h2 h3
    exact pmRun_cpu_first pre false line post v h1 h2 h3
  · intro pre line post v h1 h2 h3
    exact pmRun_gpu_first pre false line post v h1 h2 h3

/-- Witness for C1: a capture whose two lines both match the CPU-power
marker emits exactly one CPU-power sample, valued from the first line. -/
theorem claim_C1_witness :
    byName cpuPowerName (powermetricsParse
        ["CPU Power: 100 mW".data, "CPU Power: 200 mW".data]) =
      [⟨cpuPowerName, .gauge, [], 100⟩] :=
  claim_C1.2.1 [] "CPU Power: 100 mW".data ["CPU Power: 200 mW".data] 100
    (by simp) (by decide) (by decide)

/-- C6: when one source's external invocation fails, that source contributes
no parsed samples for the cycle and the samples of every other source are
unchanged (the collectors are total functions, so no exception escapes). -/
theorem claim_C6 :
    (∀ (pageSize : Rat) (vmRes : Option (List Str)),
        collectAll none pageSize vmRes = vmStatCollect pageSize vmRes) ∧
    (∀ (pmRes : Option (List Str)) (pageSize : Rat),
        collectAll pmRes pageSize none =
          powermetricsCollect pmRes ++ [⟨pageSizeName, .gauge, [], pageSize⟩]) ∧
    powermetricsCollect none = [] ∧
    macmonCollect none = [] := by
  refine ⟨fun pageSize vmRes => rfl, fun pmRes pageSize => rfl, rfl, rfl⟩

/-- C7: the vm_stat collector emits exactly one page-size sample per cycle,
valued from the environment's page size, also when the `vm_stat` invocation
fails. -/
theorem claim_C7 :
    (∀ (pageSize : Rat) (res : Option (List Str)),
        byName pageSizeName (vmStatCollect pageSize res) =
          [⟨pageSizeName, .gauge, [], pageSize⟩]) ∧
    (∀ pageSize : Rat,
        vmStatCollect pageSize none = [⟨pageSizeName, .gauge, [], pageSize⟩]) := by
  constructor
  · intro pageSize res
    have hmap : ∀ lines, byName pageSizeName (vmMapped lines) = [] := by
      intro lines
      unfold vmMapped
      rw [byName_append, byName_append, byName_append, byName_append, byName_append,
        byName_append, byName_append, byName_append, byName_append, byName_append,
        byName_append, byName_append, byName_append, byName_append, byName_append,
        byName_append, byName_append, byName_append, byName_append, byName_append]
      rw [byName_vmOptSample_ne (by decide), byName_vmOptSample_ne (by decide),
        byName_vmOptSample_ne (by decide), byName_vmOptSample_ne (by decide),
        byName_vmOptSample_ne (by decide), byName_vmOptSample_ne (by decide),
        byName_vmOptSample_ne (by decide), byName_vmOptSample_ne (by decide),
        byName_vmOptSample_ne (by decide), byName_vmOptSample_ne (by decide),
        byName_vmOptSample_ne (by decide), byName_vmOptSample_ne (by decide),
        byName_vmOptSample_ne (by decide), byName_vmOptSample_ne (by decide),
        byName_vmOptSample_ne (by decide), byName_vmOptSample_ne (by decide),
        byName_vmOptSample_ne (by decide), byName_vmOptSample_ne (by decide),
        byName_vmOptSample_ne (by decide), byName_vmOptSample_ne (by decide),
        byName_vmOptSample_ne (by decide)]
      simp
    cases res with
    | none => simp [vmStatCollect, byName]
    | some lines =>
        simp only [vmStatCollect]
        rw [← List.singleton_append, byName_append, hmap lines]
        simp [byName]
  · intro pageSize
    rfl

theorem mul_million_pos {f : Rat} : 0 < f * 1000000 ↔ 0 < f := by
  constructor
  · intro h
    nlinarith
  · intro h
    nlinarith

theorem freqUpd_parse_none {b : Str} (h : goParseFloat b = none) (v : Rat) :
    freqUpd b v = v := by
  unfold freqUpd
  rw [h]

theorem freqUpd_changed {b : Str} {prev : Rat} (h : freqUpd b prev ≠ prev) :
    ∃ f, goParseFloat b = some f ∧ freqUpd b prev = f * 1000000 := by
  unfold freqUpd at h ⊢
  cases hp : goParseFloat b with
  | none => rw [hp] at h; exact absurd rfl h
  | some f => exact ⟨f, rfl, rfl⟩

/-- C4: a powermetrics line matching the per-core frequency markers emits a
sample whose value is a parsed frequency token's value times 1,000,000 and
whose `core` label is built from the token following `"CPU"`. -/
theorem claim_C4 : ∀ line : Str, freqGuard line = true →
    ∀ s : Sample, freqStep line = [s] →
    ∃ core b f, (cpuTok, core) ∈ adjPairs (fields line) ∧
      (freqTok, b) ∈ adjPairs (fields line) ∧ goParseFloat b = some f ∧
      s = ⟨cpuFreqName, .gauge, [cpuLabel core], f * 1000000⟩ := by
  intro line hguard s hemit
  simp only [freqStep, hguard, if_true] at hemit
  by_cases hcond : (!(markerScan freqTok freqUpd (fields line) [] 0).1.isEmpty &&
      decide (0 < (markerScan freqTok freqUpd (fields line) [] 0).2)) = true
  · rw [if_pos hcond] at hemit
    have hs : s = ⟨cpuFreqName, .gauge,
        [cpuLabel (markerScan freqTok freqUpd (fields line) [] 0).1],
        (markerScan freqTok freqUpd (fields line) [] 0).2⟩ := by
      have := List.cons.injEq _ _ _ _ ▸ hemit
      simpa using hemit.symm
    rw [Bool.and_eq_true, Bool.not_eq_true', decide_eq_true_iff] at hcond
    obtain ⟨hcoreB, hvalP⟩ := hcond
    rcases markerScan_core_eq_or freqTok freqUpd (fields line) [] 0 with hc | ⟨core, hcmem, hc⟩
    · rw [hc] at hcoreB
      simp at hcoreB
    · rcases markerScan_val_eq_or freqTok freqUpd (fields line) [] 0 with hv | ⟨b, prev, hbmem, hveq, hne⟩
      · rw [hv] at hvalP
        exact absurd hvalP (lt_irrefl 0)
      · rcases freqUpd_changed hne with ⟨f, hpf, hfe⟩
        refine ⟨core, b, f, hcmem, hbmem, hpf, ?_⟩
        rw [hs, hc, hveq, hfe]
  · rw [if_neg hcond] at hemit
    exact absurd hemit.symm (by simp)

unseal Rat.mul in
/-- Witness for C4: `CPU 3 frequency: 2400 MHz` yields the single sample
labelled `cpu3` with value `2400000000`. -/
theorem claim_C4_witness :
    freqStep "CPU 3 frequency: 2400 MHz".data =
      [⟨cpuFreqName, .gauge, [cpuLabel "3".data], 2400000000⟩] ∧
    ∃ core b f,
      (cpuTok, core) ∈ adjPairs (fields "CPU 3 frequency: 2400 MHz".data) ∧
      (freqTok, b) ∈ adjPairs (fields "CPU 3 frequency: 2400 MHz".data) ∧
      goParseFloat b = some f ∧
      (⟨cpuFreqName, .gauge, [cpuLabel "3".data], 2400000000⟩ : Sample) =
        ⟨cpuFreqName, .gauge, [cpuLabel core], f * 1000000⟩ :=
  ⟨by decide, claim_C4 "CPU 3 frequency: 2400 MHz".data (by decide)
    ⟨cpuFreqName, .gauge, [cpuLabel "3".data], 2400000000⟩ (by decide)⟩

/-- C10: on a line matching the frequency markers (with a single
`frequency:` token), a sample is emitted iff some token follows `"CPU"` and
the token following `"frequency:"` parses to a strictly positive float; a
zero, negative or unparsable frequency yields no sample. -/
theorem claim_C10 : ∀ line : Str, freqGuard line = true →
    (fields line).count freqTok ≤ 1 →
    (freqStep line ≠ [] ↔
      ((∃ core, (cpuTok, core) ∈ adjPairs (fields line)) ∧
       ∃ b f, (freqTok, b) ∈ adjPairs (fields line) ∧
         goParseFloat b = some f ∧ 0 < f)) := by
  intro line hguard hcount
  constructor
  · intro hne
    by_cases hcond : (!(markerScan freqTok freqUpd (fields line) [] 0).1.isEmpty &&
        decide (0 < (markerScan freqTok freqUpd (fields line) [] 0).2)) = true
    · rw [Bool.and_eq_true, Bool.not_eq_true', decide_eq_true_iff] at hcond
      obtain ⟨hcoreB, hvalP⟩ := hcond
      constructor
      · rcases markerScan_core_eq_or freqTok freqUpd (fields line) [] 0 with hc | ⟨core, hcmem, hc⟩
        · rw [hc] at hcoreB
          simp at hcoreB
        · exact ⟨core, hcmem⟩
      · rcases markerScan_val_eq_or freqTok freqUpd (fields line) [] 0 with hv | ⟨b, prev, hbmem, hveq, hne2⟩
        · rw [hv] at hvalP
          exact absurd hvalP (lt_irrefl 0)
        · rcases freqUpd_changed hne2 with ⟨f, hpf, hfe⟩
          refine ⟨b, f, hbmem, hpf, ?_⟩
          rw [hveq, hfe] at hvalP
          exact mul_million_pos.mp hvalP
    · exact absurd (by simp [freqStep, hguard, hcond]) hne
  · rintro ⟨⟨core0, hcore0⟩, b, f, hb, hpf, hfpos⟩
    obtain ⟨b1, hb1mem, hb1eq⟩ :=
      markerScan_core_exists freqTok freqUpd (fields line) [] 0 ⟨core0, hcore0⟩
    have hb1ne : b1 ≠ [] := fields_ne_nil (mem_adjPairs_right hb1mem)
    have hval : (markerScan freqTok freqUpd (fields line) [] 0).2 = f * 1000000 := by
      rw [markerScan_val_unique freqTok freqUpd (fields line) [] 0 b hcount hb]
      unfold freqUpd
      rw [hpf]
    have hcond : (!(markerScan freqTok freqUpd (fields line) [] 0).1.isEmpty &&
        decide (0 < (markerScan freqTok freqUpd (fields line) [] 0).2)) = true := by
      rw [Bool.and_eq_true, Bool.not_eq_true', decide_eq_true_iff]
      refine ⟨?_, ?_⟩
      · rw [hb1eq]
        simpa [List.isEmpty_iff] using hb1ne
      · rw [hval]
        exact mul_million_pos.mpr hfpos
    simp [freqStep, hguard, hcond]

/-- Witness for C10: the iff instantiated at `CPU 3 frequency: 2400 MHz`. -/
theorem claim_C10_witness :
    freqStep "CPU 3 frequency: 2400 MHz".data ≠ [] ↔
      ((∃ core, (cpuTok, core) ∈ adjPairs (fields "CPU 3 frequency: 2400 MHz".data)) ∧
       ∃ b f, (freqTok, b) ∈ adjPairs (fields "CPU 3 frequency: 2400 MHz".data) ∧
         goParseFloat b = some f ∧ 0 < f) :=
  claim_C10 "CPU 3 frequency: 2400 MHz".data (by decide) (by decide)

theorem takeWhile_colon (l r : Str) (h : ':' ∉ l) :
    (l ++ ':' :: r).takeWhile (fun c => c ≠ ':') = l := by
  induction l with
  | nil => simp [List.takeWhile_cons]
  | cons a l2 ih =>
      have ha : a ≠ ':' := fun he => h (he ▸ List.mem_cons_self _ _)
      have ih2 := ih (fun hm => h (List.mem_cons_of_mem _ hm))
      rw [List.cons_append, List.takeWhile_cons]
      simp [ha]
      simpa using ih2

theorem dropWhile_colon (l r : Str) (h : ':' ∉ l) :
    (l ++ ':' :: r).dropWhile (fun c => c ≠ ':') = ':' :: r := by
  induction l with
  | nil => simp [List.dropWhile_cons]
  | cons a l2 ih =>
      have ha : a ≠ ':' := fun he => h (he ▸ List.mem_cons_self _ _)
      have ih2 := ih (fun hm => h (List.mem_cons_of_mem _ hm))
      rw [List.cons_append, List.dropWhile_cons]
      simp [ha]
      simpa using ih2

theorem splitN2colon_decomp (l r : Str) (h : ':' ∉ l) :
    splitN2colon (l ++ ':' :: r) = [l, r] := by
  unfold splitN2colon
  rw [if_pos (by simp), takeWhile_colon l r h, dropWhile_colon l r h]
  simp

theorem vmLookup_append_single (lines : List Str) (line : Str) (k : Str) :
    vmLookup (lines ++ [line]) k =
      (match vmLineParse line with
       | some e => if e.1 = k then some e.2 else vmLookup lines k
       | none => vmLookup lines k) := by
  cases hp : vmLineParse line with
  | none =>
      unfold vmLookup vmEntries
      rw [List.filterMap_append]
      simp [hp]
  | some e =>
      unfold vmLookup vmEntries
      rw [List.filterMap_append]
      simp only [List.filterMap_cons, hp, List.filterMap_nil]
      rw [List.reverse_append]
      simp only [List.reverse_cons, List.reverse_nil, List.nil_append,
        List.singleton_append, List.find?_cons]
      by_cases he : e.1 = k
      · simp [he]
      · simp [he]

/-- C2: each vm_stat line is split at its first `:`; both sides are trimmed,
the value's trailing periods are stripped and it is parsed as a float; an
entry arises exactly when the parse succeeds; a line with no `:` contributes
no entry; and the last occurrence of a duplicate key wins. -/
theorem claim_C2 :
    (∀ l r : Str, ':' ∉ l →
        vmLineParse (l ++ ':' :: r) =
          (goParseFloat (dropTrailingDots (trimSpace r))).map
            (fun v => (trimSpace l, v))) ∧
    (∀ line : Str, ':' ∉ line → vmLineParse line = none) ∧
    (∀ (lines : List Str) (line : Str) (k : Str),
        vmLookup (lines ++ [line]) k =
          (match vmLineParse line with
           | some e => if e.1 = k then some e.2 else vmLookup lines k
           | none => vmLookup lines k)) := by
  refine ⟨?_, ?_, vmLookup_append_single⟩
  · intro l r h
    unfold vmLineParse
    rw [splitN2colon_decomp l r h]
  · intro line h
    unfold vmLineParse splitN2colon
    rw [if_neg h]

/-- Witness for C2: `Pages free: 3879.` parses to the entry
`("Pages free", 3879)`. -/
theorem claim_C2_witness :
    vmLineParse ("Pages free".data ++ ':' :: " 3879.".data) =
      some ("Pages free".data, 3879) :=
  (claim_C2.1 "Pages free".data " 3879.".data (by decide)).trans (by decide)

theorem byName_vmOptSample (lines : List Str) (k : Str) (n : String) (kind : MKind)
    (n2 : String) :
    byName n2 (vmOptSample lines k n kind) =
      if n = n2 then vmOptSample lines k n kind else [] := by
  by_cases h : n = n2
  · rw [if_pos h, h, byName_vmOptSample_eq]
  · rw [if_neg h, byName_vmOptSample_ne h]

/-- C5: for every registered (observation key → metric) rule of the vm_stat
mapper, a sample is appended exactly when the key is present in the parsed
snapshot; an absent key contributes no sample at all (no zero-fill). -/
theorem claim_C5 : ∀ (lines : List Str) (key : Str) (name : String) (kind : MKind),
    (key, name, kind) ∈ vmRules →
    byName name (vmMapped lines) =
      (match vmLookup lines key with
       | some v => [⟨name, kind, [], v⟩]
       | none => []) := by
  intro lines key name kind h
  fin_cases h <;>
    (simp [vmMapped, byName_append, byName_vmOptSample]
     try rfl)

/-- Witness for C5: a snapshot without a `Pages purgeable` line yields no
`vmstat_pages_purgeable_count` sample. -/
theorem claim_C5_witness :
    byName "vmstat_pages_purgeable_count" (vmMapped ["Pages free: 3879.".data]) = [] :=
  (claim_C5 ["Pages free: 3879.".data] "Pages purgeable".data
    "vmstat_pages_purgeable_count" .gauge (by decide)).trans (by decide)

/-- C8: a JSON-monitor line that fails to decode is skipped and every later
line is still processed; the whole run is the per-line concatenation of the
decoded records' emissions. -/
theorem claim_C8 :
    (∀ (l : RawLine) (rest : List RawLine), macmonDecodeLine l = none →
        macmonRun (l :: rest) = macmonRun rest) ∧
    (∀ (l : RawLine) (d : MacMonOutput) (rest : List RawLine),
        macmonDecodeLine l = some d →
        macmonRun (l :: rest) = emitRecord d ++ macmonRun rest) ∧
    (∀ lines : List RawLine,
        macmonRun lines = (lines.filterMap macmonDecodeLine).flatMap emitRecord) := by
  refine ⟨?_, ?_, ?_⟩
  · intro l rest h
    simp [macmonRun, h]
  · intro l d rest h
    simp [macmonRun, h]
  · intro lines
    induction lines with
    | nil => rfl
    | cons l rest ih =>
        cases h : macmonDecodeLine l with
        | none => simp [macmonRun, h, ih]
        | some d => simp [macmonRun, h, ih]

/-- Witness for C8: a malformed line followed by a valid record leaves the
valid record's processing untouched. -/
theorem claim_C8_witness :
    macmonRun [RawLine.malformed, RawLine.json (.obj [("cpu_power".data, Json.num 3)])] =
      macmonRun [RawLine.json (.obj [("cpu_power".data, Json.num 3)])] :=
  claim_C8.1 RawLine.malformed _ rfl

theorem byName_ite (n : String) (c : Prop) [Decidable c] (a b : List Sample) :
    byName n (if c then a else b) = if c then byName n a else byName n b :=
  apply_ite _ _ _ _

set_option maxHeartbeats 1000000 in
theorem applyMember_cpu_power {acc : MacMonOutput} {m : Str × Json}
    {acc2 : MacMonOutput} (hk : keyMatch m.1 "cpu_power".data = false)
    (h : applyMember acc m = some acc2) : acc2.cpu_power = acc.cpu_power := by
  unfold applyMember at h
  by_cases h1 : keyMatch m.1 "all_power".data = true
  · rw [if_pos h1] at h
    rcases Option.map_eq_some'.mp h with ⟨x, hx, rfl⟩
    rfl
  · rw [if_neg h1] at h
    by_cases h2 : keyMatch m.1 "ane_power".data = true
    · rw [if_pos h2] at h
      rcases Option.map_eq_some'.mp h with ⟨x, hx, rfl⟩
      rfl
    · rw [if_neg h2] at h
      by_cases h3 : keyMatch m.1 "cpu_power".data = true
      · rw [hk] at h3
        exact absurd h3 (by simp)
      · rw [if_neg h3] at h
        by_cases h4 : keyMatch m.1 "gpu_power".data = true
        · rw [if_pos h4] at h
          rcases Option.map_eq_some'.mp h with ⟨x, hx, rfl⟩
          rfl
        · rw [if_neg h4] at h
          by_cases h5 : keyMatch m.1 "gpu_ram_power".data = true
          · rw [if_pos h5] at h
            rcases Option.map_eq_some'.mp h with ⟨x, hx, rfl⟩
            rfl
          · rw [if_neg h5] at h
            by_cases h6 : keyMatch m.1 "ram_power".data = true
            · rw [if_pos h6] at h
              rcases Option.map_eq_some'.mp h with ⟨x, hx, rfl⟩
              rfl
            · rw [if_neg h6] at h
              by_cases h7 : keyMatch m.1 "sys_power".data = true
              · rw [if_pos h7] at h
                rcases Option.map_eq_some'.mp h with ⟨x, hx, rfl⟩
                rfl
              · rw [if_neg h7] at h
                by_cases h8 : keyMatch m.1 "temp".data = true
                · rw [if_pos h8] at h
                  rcases Option.map_eq_some'.mp h with ⟨x, hx, rfl⟩
                  rfl
                · rw [if_neg h8] at h
                  by_cases h9 : keyMatch m.1 "ecpu_usage".data = true
                  · rw [if_pos h9] at h
                    rcases Option.map_eq_some'.mp h with ⟨x, hx, rfl⟩
                    rfl
                  · rw [if_neg h9] at h
                    by_cases h10 : keyMatch m.1 "pcpu_usage".data = true
                    · rw [if_pos h10] at h
                      rcases Option.map_eq_some'.mp h with ⟨x, hx, rfl⟩
                      rfl
                    · rw [if_neg h10] at h
                      by_cases h11 : keyMatch m.1 "gpu_usage".data = true
                      · rw [if_pos h11] at h
                        rcases Option.map_eq_some'.mp h with ⟨x, hx, rfl⟩
                        rfl
                      · rw [if_neg h11] at h
                        by_cases h12 : keyMatch m.1 "memory".data = true
                        · rw [if_pos h12] at h
                          rcases Option.map_eq_some'.mp h with ⟨x, hx, rfl⟩
                          rfl
                        · rw [if_neg h12] at h
                          injection h with h0
                          rw [← h0]

theorem foldlM_applyMember_cpu_power : ∀ (ms : List (Str × Json))
    (acc d : MacMonOutput), (∀ m ∈ ms, keyMatch m.1 "cpu_power".data = false) →
    ms.foldlM applyMember acc = some d → d.cpu_power = acc.cpu_power := by
  intro ms
  induction ms with
  | nil =>
      intro acc d _ h
      injection h with h2
      rw [← h2]
  | cons m ms2 ih =>
      intro acc d hall h
      rw [List.foldlM_cons] at h
      cases ha : applyMember acc m with
      | none => rw [ha] at h; simp at h
      | some acc2 =>
          rw [ha] at h
          have h2 := ih acc2 d (fun x hx => hall x (List.mem_cons_of_mem _ hx))
            (by simpa using h)
          rw [h2]
          exact applyMember_cpu_power (hall m (List.mem_cons_self _ _)) ha

theorem emitRecord_scalar (d : MacMonOutput) (name : String)
    (f : MacMonOutput → Rat) (h : (name, f) ∈ macmonScalarRules) :
    byName name (emitRecord d) = [⟨name, .gauge, [], f d⟩] := by
  fin_cases h <;>
    (simp only [emitRecord, byName_append, byName_ite]
     simp [byName])

/-- C9: every decoded JSON-monitor record emits all thirteen scalar
power/temperature/memory gauges unconditionally — a field whose key is absent
from the JSON object keeps the decoder's zero default and is emitted as `0` —
while the frequency/usage pairs are emitted exactly when their array holds at
least two elements. -/
theorem claim_C9 :
    (∀ (d : MacMonOutput) (name : String) (f : MacMonOutput → Rat),
        (name, f) ∈ macmonScalarRules →
        byName name (emitRecord d) = [⟨name, .gauge, [], f d⟩]) ∧
    (∀ d : MacMonOutput,
        (byName "macmon_ecpu_frequency_megahertz" (emitRecord d) ≠ [] ↔
          2 ≤ d.ecpu_usage.length) ∧
        (byName "macmon_ecpu_usage_percent" (emitRecord d) ≠ [] ↔
          2 ≤ d.ecpu_usage.length) ∧
        (byName "macmon_pcpu_frequency_megahertz" (emitRecord d) ≠ [] ↔
          2 ≤ d.pcpu_usage.length) ∧
        (byName "macmon_pcpu_usage_percent" (emitRecord d) ≠ [] ↔
          2 ≤ d.pcpu_usage.length) ∧
        (byName "macmon_gpu_frequency_megahertz" (emitRecord d) ≠ [] ↔
          2 ≤ d.gpu_usage.length) ∧
        (byName "macmon_gpu_usage_percent" (emitRecord d) ≠ [] ↔
          2 ≤ d.gpu_usage.length)) ∧
    (∀ (ms : List (Str × Json)) (d : MacMonOutput),
        (∀ m ∈ ms, keyMatch m.1 "cpu_power".data = false) →
        unmarshalMacMon (.obj ms) = some d →
        d.cpu_power = 0 ∧
        byName "macmon_cpu_power_watts" (emitRecord d) =
          [⟨"macmon_cpu_power_watts", .gauge, [], 0⟩]) := by
  refine ⟨emitRecord_scalar, ?_, ?_⟩
  · intro d
    by_cases h1 : 2 ≤ d.ecpu_usage.length <;>
    by_cases h2 : 2 ≤ d.pcpu_usage.length <;>
    by_cases h3 : 2 ≤ d.gpu_usage.length <;>
      (simp only [emitRecord, byName_append, byName_ite]
       simp [byName, h1, h2, h3])
  · intro ms d hall h
    have h0 : d.cpu_power = 0 := by
      have := foldlM_applyMember_cpu_power ms {} d hall
        (by simpa [unmarshalMacMon] using h)
      simpa using this
    refine ⟨h0, ?_⟩
    have hs := emitRecord_scalar d "macmon_cpu_power_watts" (fun d => d.cpu_power)
      (by simp [macmonScalarRules])
    rw [hs]
    simp [h0]

/-- Witness for C9: the empty record emits its scalars with value 0, and a
record decoded from an object without a `cpu_power` key emits the CPU-power
gauge with value 0. -/
theorem claim_C9_witness :
    byName "macmon_all_power_watts" (emitRecord {}) =
      [⟨"macmon_all_power_watts", .gauge, [], 0⟩] ∧
    ({ all_power := 7 } : MacMonOutput).cpu_power = 0 ∧
    byName "macmon_cpu_power_watts" (emitRecord { all_power := 7 }) =
      [⟨"macmon_cpu_power_watts", .gauge, [], 0⟩] :=
  ⟨claim_C9.1 {} "macmon_all_power_watts" (fun d => d.all_power)
      (by simp [macmonScalarRules]),
   (claim_C9.2.2 [("all_power".data, Json.num 7)] { all_power := 7 }
      (by decide) (by decide)).1,
   (claim_C9.2.2 [("all_power".data, Json.num 7)] { all_power := 7 }
      (by decide) (by decide)).2⟩

theorem resUpd_parse_none {b : Str} (h : goParseFloat (trimSuffixPercent b) = none)
    (v : Rat) : resUpd b v = v := by
  unfold resUpd
  rw [h]

/-- Counterexample for C3 as stated: on the line `CPU 0 idle residency: abc%`
the residency token `abc%` fails numeric parsing, yet a sample with the
zero-initialized value `0` is emitted (the guard `residencyValue >= 0` accepts
the never-assigned default). -/
theorem claim_C3_counterexample :
    goParseFloat (trimSuffixPercent "abc%".data) = none ∧
    idleResStep "CPU 0 idle residency: abc%".data =
      [⟨cpuIdleResName, .gauge, [cpuLabel "0".data], 0⟩] := by
  constructor
  · decide
  · decide

/-- C3 amended: an unparsable value token yields no sample in the CPU/GPU
power blocks, the frequency block, the GPU HW active and GPU idle residency
blocks, the vm_stat line parser and the JSON monitor, and a parse failure
never aborts processing of the remaining lines; the one exception is the CPU
active/idle residency blocks, which, when a core token is present and no
residency token parses, emit a sample carrying the value's zero
initialization. -/
theorem claim_C3_amended :
    (∀ (c : Bool) (line : Str), powerVal line = none →
        cpuPowerStep c line = ([], c)) ∧
    (∀ (g : Bool) (line : Str), powerVal line = none →
        gpuPowerStep g line = ([], g)) ∧
    (∀ line : Str,
        (∀ p ∈ adjPairs (fields line), p.1 = freqTok → goParseFloat p.2 = none) →
        freqStep line = []) ∧
    (∀ line : Str,
        ((firstSuccessor resTok (fields line)).bind
          fun t => goParseFloat (trimSuffixPercent t)) = none →
        gpuActiveResStep line = []) ∧
    (∀ line : Str,
        ((firstSuccessor resTok (fields line)).bind
          fun t => goParseFloat (trimSuffixPercent t)) = none →
        gpuIdleResStep line = []) ∧
    (∀ (line : Str) (rest : List Str), vmLineParse line = none →
        vmEntries (line :: rest) = vmEntries rest) ∧
    (∀ l r : Str, ':' ∉ l → goParseFloat (dropTrailingDots (trimSpace r)) = none →
        vmLineParse (l ++ ':' :: r) = none) ∧
    (∀ (j : Json) (rest : List RawLine), unmarshalMacMon j = none →
        macmonRun (RawLine.json j :: rest) = macmonRun rest) ∧
    (∀ line : Str, activeResGuard line = true →
        (∃ core, (cpuTok, core) ∈ adjPairs (fields line)) →
        (∀ p ∈ adjPairs (fields line), p.1 = resTok →
          goParseFloat (trimSuffixPercent p.2) = none) →
        ∃ core, (cpuTok, core) ∈ adjPairs (fields line) ∧
          activeResStep line = [⟨cpuActiveResName, .gauge, [cpuLabel core], 0⟩]) ∧
    (∀ line : Str, idleResGuard line = true →
        (∃ core, (cpuTok, core) ∈ adjPairs (fields line)) →
        (∀ p ∈ adjPairs (fields line), p.1 = resTok →
          goParseFloat (trimSuffixPercent p.2) = none) →
        ∃ core, (cpuTok, core) ∈ adjPairs (fields line) ∧
          idleResStep line = [⟨cpuIdleResName, .gauge, [cpuLabel core], 0⟩]) := by
  refine ⟨?_, ?_, ?_, ?_, ?_, ?_, ?_, ?_, ?_, ?_⟩
  · intro c line h
    unfold cpuPowerStep
    split
    · cases hfs : firstSuccessor powerTok (fields line) with
      | none => simp [hfs]
      | some t =>
          rw [powerVal, hfs, Option.some_bind] at h
          simp [hfs, h]
    · rfl
  · intro g line h
    unfold gpuPowerStep
    split
    · cases hfs : firstSuccessor powerTok (fields line) with
      | none => simp [hfs]
      | some t =>
          rw [powerVal, hfs, Option.some_bind] at h
          simp [hfs, h]
    · rfl
  · intro line hnone
    by_cases hguard : freqGuard line = true
    · have hval : (markerScan freqTok freqUpd (fields line) [] 0).2 = 0 :=
        markerScan_val_stable freqTok freqUpd (fields line) [] 0
          (fun p hp hpm v2 => freqUpd_parse_none (hnone p hp hpm) v2)
      simp only [freqStep, hguard, if_true]
      rw [hval]
      simp
    · simp [freqStep, hguard]
  · intro line h
    unfold gpuActiveResStep
    split
    · cases hfs : firstSuccessor resTok (fields line) with
      | none => simp [hfs]
      | some t =>
          rw [hfs, Option.some_bind] at h
          simp [hfs, h]
    · rfl
  · intro line h
    unfold gpuIdleResStep
    split
    · cases hfs : firstSuccessor resTok (fields line) with
      | none => simp [hfs]
      | some t =>
          rw [hfs, Option.some_bind] at h
          simp [hfs, h]
    · rfl
  · intro line rest h
    simp [vmEntries, h]
  · intro l r h hv
    unfold vmLineParse
    rw [splitN2colon_decomp l r h]
    simp [hv]
  · intro j rest h
    simp [macmonRun, macmonDecodeLine, h]
  · intro line hguard hex hnone
    obtain ⟨b1, hb1mem, hb1eq⟩ :=
      markerScan_core_exists resTok resUpd (fields line) [] 0 hex
    have hval : (markerScan resTok resUpd (fields line) [] 0).2 = 0 :=
      markerScan_val_stable resTok resUpd (fields line) [] 0
        (fun p hp hpm v2 => resUpd_parse_none (hnone p hp hpm) v2)
    have hb1ne : b1 ≠ [] := fields_ne_nil (mem_adjPairs_right hb1mem)
    refine ⟨b1, hb1mem, ?_⟩
    simp only [activeResStep, hguard, if_true]
    rw [hb1eq, hval]
    have hcond : (!b1.isEmpty && decide ((0 : Rat) ≤ 0)) = true := by
      rw [Bool.and_eq_true, Bool.not_eq_true']
      constructor
      · simpa [List.isEmpty_iff] using hb1ne
      · decide
    simp [hcond, hb1ne]
  · intro line hguard hex hnone
    obtain ⟨b1, hb1mem, hb1eq⟩ :=
      markerScan_core_exists resTok resUpd (fields line) [] 0 hex
    have hval : (markerScan resTok resUpd (fields line) [] 0).2 = 0 :=
      markerScan_val_stable resTok resUpd (fields line) [] 0
        (fun p hp hpm v2 => resUpd_parse_none (hnone p hp hpm) v2)
    have hb1ne : b1 ≠ [] := fields_ne_nil (mem_adjPairs_right hb1mem)
    refine ⟨b1, hb1mem, ?_⟩
    simp only [idleResStep, hguard, if_true]
    rw [hb1eq, hval]
    have hcond : (!b1.isEmpty && decide ((0 : Rat) ≤ 0)) = true := by
      rw [Bool.and_eq_true, Bool.not_eq_true']
      constructor
      · simpa [List.isEmpty_iff] using hb1ne
      · decide
    simp [hcond, hb1ne]

/-- Witness for C3 amended: an unparsable CPU-power token emits nothing, an
unparsable GPU HW active residency token emits nothing, a non-numeric vm_stat
banner line is skipped while the next line still parses, and unparsable CPU
active/idle residency tokens with a core token present emit the zero-valued
sample. -/
theorem claim_C3_witness :
    cpuPowerStep false "CPU Power: xyz mW".data = ([], false) ∧
    gpuActiveResStep "GPU HW active residency: abc%".data = [] ∧
    vmEntries ["Mach Virtual Memory Statistics:".data, "Pages free: 3879.".data] =
      vmEntries ["Pages free: 3879.".data] ∧
    (∃ core, (cpuTok, core) ∈ adjPairs (fields "CPU 0 active residency: abc%".data) ∧
      activeResStep "CPU 0 active residency: abc%".data =
        [⟨cpuActiveResName, .gauge, [cpuLabel core], 0⟩]) ∧
    (∃ core, (cpuTok, core) ∈ adjPairs (fields "CPU 0 idle residency: abc%".data) ∧
      idleResStep "CPU 0 idle residency: abc%".data =
        [⟨cpuIdleResName, .gauge, [cpuLabel core], 0⟩]) :=
  ⟨claim_C3_amended.1 false _ (by decide),
   claim_C3_amended.2.2.2.1 _ (by decide),
   claim_C3_amended.2.2.2.2.2.1 _ _ (by decide),
   claim_C3_amended.2.2.2.2.2.2.2.2.1 _ (by decide) ⟨"0".data, by decide⟩ (by decide),
   claim_C3_amended.2.2.2.2.2.2.2.2.2 _ (by decide) ⟨"0".data, by decide⟩ (by decide)⟩

/-! ## Sanity checks on concrete inputs -/

example : goParseFloat "2400".data = some 2400 := by decide

example : goParseFloat "99.96".data = some (mkRat 2499 25) := by decide

example : goParseFloat "abc".data = none := by decide

example : goParseFloat "1.2.".data = none := by decide

example : goParseFloat "1234.".data = some 1234 := by decide

example : goParseFloat "-5".data = some (-5) := by decide

unseal Rat.mul in
example : goParseFloat "1e2".data = some 100 := by decide

example : fields "CPU 3 frequency: 2400 MHz".data =
    ["CPU".data, "3".data, "frequency:".data, "2400".data, "MHz".data] := by decide

example : containsSub "CPU Power: 1339 mW".data "CPU Power:".data = true := by decide

example : containsSub "GPU Power: 6 mW".data "CPU Power:".data = false := by decide

example : splitN2colon "Pages free: 3879.".data =
    ["Pages free".data, " 3879.".data] := by decide

example : dropTrailingDots (trimSpace " 3879.".data) = "3879".data := by decide
